import Mathlib

/-!
Verification of the paper-lookup resolver and the Slack formatting layer of the
HF daily-paper agent, shallowly embedded from the Python sources
(`tools/top_paper_getter.py` and `tools/slack_poster.py`).

Python strings are modelled as lists of characters (`Str`).  External dataset
loads are modelled as `Except` parameters: a `.ok` value is the loaded data, a
`.error` value is the exception raised by `load_dataset`.  Calendar dates are
modelled as explicit year/month/day records with proleptic-Gregorian day
stepping, matching `datetime` subtraction by whole days and `strftime`
formatting with the `%Y-%m-%d` pattern.
-/

set_option maxRecDepth 20000

instance exceptDecEq {ε α : Type} [DecidableEq ε] [DecidableEq α] :
    DecidableEq (Except ε α) := fun a b =>
  match a, b with
  | .ok x, .ok y =>
    if h : x = y then isTrue (by rw [h]) else isFalse (by simp [h])
  | .error x, .error y =>
    if h : x = y then isTrue (by rw [h]) else isFalse (by simp [h])
  | .ok _, .error _ => isFalse (by simp)
  | .error _, .ok _ => isFalse (by simp)

/-- Python `str` modelled as a list of characters. -/
abbrev Str := List Char

/-- Coerce a Lean string literal to the character-list model. -/
def str (s : String) : Str := s.data

/-! ## Calendar dates (`datetime` objects restricted to whole days) -/

/-- A calendar date, as produced by `datetime.strptime(date, "%Y-%m-%d")`. -/
structure Date where
  year : Nat
  month : Nat
  day : Nat
deriving DecidableEq

/-- Gregorian leap-year rule used by `datetime`. -/
def isLeapYear (y : Nat) : Bool :=
  (y % 4 == 0 && y % 100 != 0) || y % 400 == 0

/-- Number of days in a month of a given year. -/
def daysInMonth (y m : Nat) : Nat :=
  if m = 2 then (if isLeapYear y then 29 else 28)
  else if m = 4 ∨ m = 6 ∨ m = 9 ∨ m = 11 then 30
  else 31

/-- The previous calendar day (one `timedelta(days=1)` step backwards). -/
def Date.pred (d : Date) : Date :=
  if 1 < d.day then ⟨d.year, d.month, d.day - 1⟩
  else if 1 < d.month then ⟨d.year, d.month - 1, daysInMonth d.year (d.month - 1)⟩
  else ⟨d.year - 1, 12, 31⟩

/-- `d - timedelta(days=n)`. -/
def Date.subDays (d : Date) : Nat → Date
  | 0 => d
  | n + 1 => (d.subDays n).pred

/-- Decimal digits of a natural number. -/
def natStr (n : Nat) : Str := Nat.toDigits 10 n

/-- Zero-padded decimal rendering of width `w`, as in `strftime`. -/
def padNum (w n : Nat) : Str :=
  List.replicate (w - (Nat.toDigits 10 n).length) '0' ++ Nat.toDigits 10 n

/-- `check_date.strftime("%Y-%m-%d")`. -/
def fmtDate (d : Date) : Str :=
  padNum 4 d.year ++ '-' :: padNum 2 d.month ++ '-' :: padNum 2 d.day

/-! ## Dataset rows and frames (`top_paper_getter.py`)

A pandas `DataFrame` is modelled as a row list together with one flag per
optional column (`"date" in df.columns`, `"created" in df.columns`, and for
the legacy dataset `"upvotes"` / `"score"`); column presence is a frame-level
property in pandas, so the flags live on the frame, not on the rows.  Fields
that the resolver never inspects (title, authors, ...) are omitted from the
row model; the `authors` normalisation applied to the selected row mutates
only that omitted field and cannot raise (its `json.loads` attempt is guarded
by a bare `except` with a comma-split fallback), so it does not affect which
row is returned or which error is raised. -/

/-- A row of the candidate table scanned by the resolver. -/
structure Row where
  arxiv_id : Str
  date : Str
  created : Str
  upvotes : Int
  score : Int
deriving DecidableEq

/-- A row of the `hysts-bot-data/daily-papers` metadata table. -/
structure PaperRow where
  arxiv_id : Str
  date : Str
  created : Str
deriving DecidableEq

/-- The `hysts-bot-data/daily-papers` table with its optional-column flags. -/
structure PapersDF where
  rows : List PaperRow
  hasDate : Bool
  hasCreated : Bool
deriving DecidableEq

/-- A row of the `hysts-bot-data/daily-papers-stats` engagement table. -/
structure StatsRow where
  arxiv_id : Str
  upvotes : Int
deriving DecidableEq

/-- The legacy `justinxzhao/hf_daily_papers` combined table with its
optional-column flags. -/
structure LegacyDF where
  rows : List Row
  hasDate : Bool
  hasCreated : Bool
  hasUpvotes : Bool
  hasScore : Bool
deriving DecidableEq

/-- `pd.merge(papers_df, stats_df, on="arxiv_id", how="inner")`
(line 99): each metadata row in order, paired with its matching stats rows in
order.  The merged frame has no `score` column, recorded here as `0`. -/
def mergeRows (papers : List PaperRow) (stats : List StatsRow) : List Row :=
  papers.flatMap fun p =>
    (stats.filter fun s => s.arxiv_id == p.arxiv_id).map fun s =>
      { arxiv_id := p.arxiv_id, date := p.date, created := p.created
      , upvotes := s.upvotes, score := 0 }

/-- `x.split("T")[0] if "T" in x else x` (lines 120-122). -/
def splitT (s : Str) : Str :=
  if 'T' ∈ s then s.takeWhile (fun c => c != 'T') else s

/-- The descending sort relation used for `sort_values(by=key, ascending=False)`.
pandas' default quicksort leaves the order of ties implementation-defined;
this model realises one stable order. -/
def rankDesc (f : Row → Int) (a b : Row) : Prop := f b ≤ f a

instance (f : Row → Int) : DecidableRel (rankDesc f) := fun _ _ => Int.decLe _ _

instance rankDescTotal (f : Row → Int) : IsTotal Row (rankDesc f) :=
  ⟨fun a b => le_total (f b) (f a)⟩

instance rankDescTrans (f : Row → Int) : IsTrans Row (rankDesc f) :=
  ⟨fun _ _ _ hab hbc => le_trans hbc hab⟩

/-- `df.sort_values(by=key, ascending=False)`. -/
def sortDescBy (f : Row → Int) (l : List Row) : List Row :=
  l.insertionSort (rankDesc f)

/-- The per-day candidate filter of the scan loop (lines 109-123 and 176-188):
prefix-match the `date` column against the formatted check date; if that
column is absent or yields no rows, equality-match the `T`-truncated
`created` column. -/
def selectForDate (hasDate hasCreated : Bool) (rows : List Row) (ds : Str) :
    List Row :=
  if hasDate then
    let d1 := rows.filter fun r => ds.isPrefixOf r.date
    if d1.isEmpty then
      (if hasCreated then rows.filter fun r => splitT r.created == ds else [])
    else d1
  else
    if hasCreated then rows.filter fun r => splitT r.created == ds else []

/-- The backward day-by-day scan
(`for days_back in range(max_days_to_look_back + 1)`, lines 105-138):
at the first check date whose filter is non-empty, return the first (already
top-ranked) row. -/
def scanDates (hasDate hasCreated : Bool) (rows : List Row) (target : Date) :
    Nat → Nat → Option Row
  | _, 0 => none
  | daysBack, n + 1 =>
    match (selectForDate hasDate hasCreated rows
        (fmtDate (target.subDays daysBack))).head? with
    | some r => some r
    | none => scanDates hasDate hasCreated rows target (daysBack + 1) n

/-- `f"No papers found within {max_days_to_look_back} days of {target_date}"`
(lines 141 and 205). -/
def noPapersMsg (target : Date) (maxDays : Nat) : Str :=
  str "No papers found within " ++ natStr maxDays ++ str " days of " ++
    fmtDate target

/-- `_get_top_paper_from_legacy_dataset` (lines 143-205), with the
`load_dataset` call abstracted as the `legacyLoad` parameter. -/
def get_top_paper_from_legacy_dataset (legacyLoad : Except Str LegacyDF)
    (target : Date) (maxDays : Nat) : Except Str Row :=
  match legacyLoad with
  | .error e => .error e
  | .ok df =>
    let ranked :=
      if df.hasUpvotes then sortDescBy (fun r => r.upvotes) df.rows
      else if df.hasScore then sortDescBy (fun r => r.score) df.rows
      else df.rows
    match scanDates df.hasDate df.hasCreated ranked target 0 (maxDays + 1) with
    | some r => .ok r
    | none => .error (noPapersMsg target maxDays)

/-- `_get_top_paper_by_date` (lines 66-141), with the two `load_dataset`
calls abstracted as the `primaryLoad` parameter.  On a primary load failure
the legacy path is tried, and any exception `e2` it raises — including its
own "no papers found" `ValueError` — is re-raised as
`ValueError(f"Failed to load datasets: {str(e2)}")` (lines 88-92). -/
def get_top_paper_by_date (primaryLoad : Except Str (PapersDF × List StatsRow))
    (legacyLoad : Except Str LegacyDF) (target : Date) (maxDays : Nat) :
    Except Str Row :=
  match primaryLoad with
  | .ok (papers, stats) =>
    let ranked := sortDescBy (fun r => r.upvotes) (mergeRows papers.rows stats)
    match scanDates papers.hasDate papers.hasCreated ranked target 0
        (maxDays + 1) with
    | some r => .ok r
    | none => .error (noPapersMsg target maxDays)
  | .error _ =>
    match get_top_paper_from_legacy_dataset legacyLoad target maxDays with
    | .ok r => .ok r
    | .error e2 => .error (str "Failed to load datasets: " ++ e2)

/-- The candidate filter over the unsorted merged primary tables, used to
state properties of the resolver. -/
def primarySelect (papers : PapersDF) (stats : List StatsRow) (ds : Str) :
    List Row :=
  selectForDate papers.hasDate papers.hasCreated (mergeRows papers.rows stats) ds

/-- The candidate filter over the unsorted legacy table. -/
def legacySelect (df : LegacyDF) (ds : Str) : List Row :=
  selectForDate df.hasDate df.hasCreated df.rows ds

/-! ## `get_top_paper_pdf_url` post-processing (lines 47-64) -/

/-- The dictionary returned by `_get_top_paper_by_date`, with the keys that
`get_top_paper_pdf_url` reads; each is optional (`dict.get`). -/
structure TopPaperDict where
  paper_id : Option Str
  arxiv_id : Option Str
  title : Option Str
  authors : Option (List Str)
  upvotes : Option Int
  date : Option Str
deriving DecidableEq

/-- The record returned by `get_top_paper_pdf_url`. -/
structure PaperResult where
  paper_id : Str
  title : Str
  authors : List Str
  upvotes : Int
  date : Str
  pdf_url : Str
deriving DecidableEq

/-- `ARXIV_PDF_URL_PATTERN.format(paper_id=paper_id)`. -/
def arxivPdfUrl (paper_id : Str) : Str := str "https://arxiv.org/pdf/" ++ paper_id

/-- The result-assembly tail of `get_top_paper_pdf_url` (lines 47-64), as a
function of the row dictionary produced by `_get_top_paper_by_date`. -/
def get_top_paper_pdf_url (top_paper : TopPaperDict) : PaperResult :=
  let paper_id := top_paper.paper_id.getD (top_paper.arxiv_id.getD [])
  let paper_id :=
    if 'v' ∈ paper_id then paper_id.takeWhile (fun c => c != 'v') else paper_id
  { paper_id := paper_id
  , title := top_paper.title.getD []
  , authors := top_paper.authors.getD []
  , upvotes := top_paper.upvotes.getD 0
  , date := top_paper.date.getD []
  , pdf_url := arxivPdfUrl paper_id }

/-- Whether a string ends in a `v<digits>` version suffix (at least one
trailing digit immediately preceded by a literal `v`). -/
def hasVersionSuffix (s : Str) : Bool :=
  let revDigits := s.reverse.takeWhile Char.isDigit
  !revDigits.isEmpty && (s.reverse.drop revDigits.length).head? == some 'v'

/-! ## `_truncate_text` (slack_poster.py lines 115-119) -/

/-- Python slice `s[:k]` for a possibly negative bound `k`. -/
def pySliceTo (s : Str) (k : Int) : Str :=
  if 0 ≤ k then s.take k.toNat else s.take (s.length - (-k).toNat)

/-- `_truncate_text(text, max_length)`:
`text if len(text) <= max_length else text[:max_length-3] + "..."`. -/
def truncate_text (text : Str) (max_length : Nat) : Str :=
  if text.length ≤ max_length then text
  else pySliceTo text ((max_length : Int) - 3) ++ str "..."

/-! ## Markup transducer (`slack_poster.py` lines 121-312)

The transducer is modelled line by line from `_format_markdown_for_slack` and
`_process_inline_formatting`.  Python `re` substitutions are realised as
explicit left-to-right scanners with the same matching discipline
(leftmost match wins, non-overlapping continuation after each match, lazy
`(.*?)` as shortest close with `.` excluding newlines, greedy `[\w\s]+` with
backtracking).  The character classes `\s` and `\w` are modelled at their
ASCII restriction, which covers every character class decision the source
makes on its ASCII-markup inputs.  Scanners that continue past a variable
number of consumed characters take an explicit fuel argument, always
instantiated with the string length, which bounds the number of emitted
segments.  The one partial operation of the source — the
`formatted_lines[-1]` access in the list-closing branch — is modelled by
`Option`, with `none` playing the role of Python's `IndexError`. -/

/-- Python whitespace (`\s`, `str.strip`) at its ASCII restriction. -/
def isPySpace (c : Char) : Bool :=
  c == ' ' || c == '\t' || c == '\n' || c == '\r' ||
    c == Char.ofNat 11 || c == Char.ofNat 12

/-- `line.strip()`. -/
def stripPy (s : Str) : Str :=
  ((s.dropWhile isPySpace).reverse.dropWhile isPySpace).reverse

/-- `text.split('\n')`. -/
def splitOnNl : Str → List Str
  | [] => [[]]
  | c :: rest =>
    if c = '\n' then [] :: splitOnNl rest
    else
      match splitOnNl rest with
      | [] => [[c]]
      | l :: ls => (c :: l) :: ls

/-- `'\n'.join(formatted_lines)`. -/
def joinNl : List Str → Str
  | [] => []
  | [l] => l
  | l :: ls => l ++ '\n' :: joinNl ls

/-- `re.sub(r'([^\n])\n([^\n])', r'\1\n\n\2', text)` (line 132): widen a
single newline flanked by non-newlines into a double newline, scanning left
to right and continuing after each consumed match. -/
def prepass : Str → Str
  | a :: b :: c :: rest =>
    if a ≠ '\n' ∧ b = '\n' ∧ c ≠ '\n' then a :: '\n' :: '\n' :: c :: prepass rest
    else a :: prepass (b :: c :: rest)
  | s => s

/-- `re.sub(r'\n{3,}', '\n\n', result)` (line 289): collapse every maximal
run of three or more newlines to exactly two. -/
def collapse3F : Nat → Str → Str
  | 0, s => s
  | _ + 1, [] => []
  | fuel + 1, '\n' :: '\n' :: '\n' :: rest =>
    '\n' :: '\n' :: collapse3F fuel (rest.dropWhile fun c => c == '\n')
  | fuel + 1, a :: rest => a :: collapse3F fuel rest

def collapse3 (s : Str) : Str := collapse3F s.length s

/-- Python `\w` at its ASCII restriction. -/
def isPyWord (c : Char) : Bool := c.isAlphanum || c == '_'

def isWordSpace (c : Char) : Bool := isPyWord c || isPySpace c

/-- Offset of the lazily nearest `cc` close: the smallest `j` such that the
double marker occurs at `j` and no newline (which `.` cannot match) occurs
before it. -/
def findDoubleClose (c : Char) : Str → Option Nat
  | a :: b :: rest =>
    if a = c ∧ b = c then some 0
    else if a = '\n' then none
    else (findDoubleClose c (b :: rest)).map (· + 1)
  | _ => none

/-- `re.sub(r'\*\*(.*?)\*\*', r'*\1*', text)` (line 307) for `c = '*'`, and
`re.sub(r'__(.*?)__', r'_\1_', text)` (line 310) for `c = '_'`. -/
def subDoubleF (c : Char) : Nat → Str → Str
  | 0, s => s
  | _ + 1, [] => []
  | fuel + 1, a :: rest =>
    if a = c ∧ rest.head? = some c then
      match findDoubleClose c rest.tail with
      | some j =>
        c :: (rest.tail.take j ++ c :: subDoubleF c fuel (rest.tail.drop (j + 2)))
      | none => a :: subDoubleF c fuel rest
    else a :: subDoubleF c fuel rest

def subDouble (c : Char) (s : Str) : Str := subDoubleF c s.length s

/-- Whether a string starts with the literal `":**"`. -/
def startsColonStars (t : Str) : Bool := t.take 3 == [':', '*', '*']

/-- Greedy-with-backtracking content length for `([\w\s]+):\*\*`: the largest
`k ≥ 1` not exceeding the maximal word-or-space run such that `":**"` follows
the first `k` characters. -/
def findColonCloseWSAux (s : Str) : Nat → Option Nat
  | 0 => none
  | k + 1 =>
    if (s.take (k + 1)).all isWordSpace && startsColonStars (s.drop (k + 1)) then
      some (k + 1)
    else findColonCloseWSAux s k

def findColonCloseWS (s : Str) : Option Nat :=
  findColonCloseWSAux s (s.takeWhile isWordSpace).length

/-- `re.sub(r'\*\*([\w\s]+):\*\*', r'*\1:*', text)` (line 304). -/
def subStarColonWSF : Nat → Str → Str
  | 0, s => s
  | _ + 1, [] => []
  | fuel + 1, a :: rest =>
    if a = '*' ∧ rest.head? = some '*' then
      match findColonCloseWS rest.tail with
      | some k =>
        '*' :: (rest.tail.take k ++ ':' :: '*' ::
          subStarColonWSF fuel (rest.tail.drop (k + 3)))
      | none => a :: subStarColonWSF fuel rest
    else a :: subStarColonWSF fuel rest

def subStarColonWS (s : Str) : Str := subStarColonWSF s.length s

/-- Lazy content length for `(.*?):\*\*`: the smallest `j` such that `":**"`
occurs at `j` with no newline among the first `j` characters. -/
def findColonCloseLazy : Str → Option Nat
  | [] => none
  | a :: rest =>
    if a = ':' ∧ rest.take 2 = ['*', '*'] then some 0
    else if a = '\n' then none
    else (findColonCloseLazy rest).map (· + 1)

/-- `re.sub(r'\*\*(.*?):\*\*', r'*\1:*', content)` (lines 211, 240, 269). -/
def subStarColonLazyF : Nat → Str → Str
  | 0, s => s
  | _ + 1, [] => []
  | fuel + 1, a :: rest =>
    if a = '*' ∧ rest.head? = some '*' then
      match findColonCloseLazy rest.tail with
      | some k =>
        '*' :: (rest.tail.take k ++ ':' :: '*' ::
          subStarColonLazyF fuel (rest.tail.drop (k + 3)))
      | none => a :: subStarColonLazyF fuel rest
    else a :: subStarColonLazyF fuel rest

def subBoldColonLine (s : Str) : Str := subStarColonLazyF s.length s

/-- `_process_inline_formatting` (lines 293-312): the word-or-space
bold-colon pattern, then generic bold, then italic. -/
def process_inline_formatting (s : Str) : Str :=
  subDouble '_' (subDouble '*' (subStarColonWS s))

/-- The prefix tuple of the section-title guard (line 158). -/
def sectionMarkers : List Str :=
  [ str "#", str "*", str "-", str "+", str "1.", str "2.", str "3.", str "4."
  , str "5.", str "6.", str "7.", str "8.", str "9." ]

/-- `s.startswith(tuple)`. -/
def startsWithAny (s : Str) (ps : List Str) : Bool :=
  ps.any fun p => p.isPrefixOf s

/-- The bare section-title guard (lines 158-160): stripped line not starting
with a marker, ending in a colon, shorter than 50 characters. -/
def titleBranchCond (line : Str) : Bool :=
  !startsWithAny (stripPy line) sectionMarkers &&
    (stripPy line).getLast? == some ':' && decide ((stripPy line).length < 50)

/-- Header text extraction (lines 173-176 and analogues): drop the marker,
strip, and drop one trailing colon if present. -/
def headerTitle (dropN : Nat) (line : Str) : Str :=
  let t := stripPy (line.drop dropN)
  if t.getLast? == some ':' then t.dropLast else t

/-- `re.match(r'^\s*[\*\-\+] ', line)` (line 202). -/
def bulletCond (line : Str) : Bool :=
  match line.dropWhile isPySpace with
  | m :: sp :: _ => (m == '*' || m == '-' || m == '+') && sp == ' '
  | _ => false

/-- `re.match(r'^\s*\d+\.\s', line)` (line 235). -/
def numberedCond (line : Str) : Bool :=
  let t := line.dropWhile isPySpace
  let ds := t.takeWhile Char.isDigit
  !ds.isEmpty && ((t.drop ds.length).head? == some '.') &&
    (match (t.drop (ds.length + 1)).head? with
     | some c => isPySpace c
     | none => false)

/-- The bullet-item branch body (lines 202-229): strip marker plus one
whitespace character, rewrite the bold-colon sub-pattern, apply inline
formatting, and re-emit behind a bullet glyph indented relative to the
current list indentation. -/
def bulletOut (listIndent : Nat) (line : Str) : Str :=
  let indent := (line.takeWhile isPySpace).length
  let content :=
    process_inline_formatting (subBoldColonLine ((line.dropWhile isPySpace).drop 2))
  let bullet : Str :=
    if listIndent < indent then [' ', ' ', ' ', '•']
    else if indent < listIndent ∧ 0 < indent then [' ', '•']
    else ['•']
  bullet ++ ' ' :: content

/-- The numbered-item branch body (lines 235-258): keep the digits and dot,
normalise the separator to one space, re-indent with plain spaces. -/
def numberedOut (line : Str) : Str :=
  let t := line.dropWhile isPySpace
  let ds := t.takeWhile Char.isDigit
  let content := process_inline_formatting (subBoldColonLine (t.drop (ds.length + 2)))
  let indent := (line.takeWhile isPySpace).length
  List.replicate indent ' ' ++ ds ++ '.' :: ' ' :: content

/-- `i+1 < len(lines) and lines[i+1].strip()`: the one-line lookahead that
decides whether to force a blank separator. -/
def nextNonblank : List Str → Bool
  | [] => false
  | nl :: _ => !(stripPy nl).isEmpty

/-- The mutable loop state of `_format_markdown_for_slack`
(`in_list`, `list_indent`, `prev_was_empty`). -/
structure FmtState where
  inList : Bool
  listIndent : Nat
  prevEmpty : Bool
deriving DecidableEq

/-- The line loop of `_format_markdown_for_slack` (lines 144-283).  Emitted
lines are accumulated in reverse.  The `formatted_lines[-1]` access of the
list-closing branch (line 278) is modelled by `acc.head?`, with `none`
standing for Python's `IndexError` on an empty list. -/
def formatLines (st : FmtState) (acc : List Str) : List Str → Option (List Str)
  | [] => some acc.reverse
  | line :: rest =>
    if (stripPy line).isEmpty then
      if st.prevEmpty then formatLines st acc rest
      else formatLines { st with prevEmpty := true } ([] :: acc) rest
    else
      if titleBranchCond line then
        formatLines { st with prevEmpty := false }
          ((if nextNonblank rest then [[]] else []) ++
            ('*' :: (stripPy line ++ ['*'])) :: acc) rest
      else if (str "# ").isPrefixOf line then
        formatLines { st with prevEmpty := false }
          ((if nextNonblank rest then [[]] else []) ++
            ('*' :: (headerTitle 2 line ++ ['*'])) :: acc) rest
      else if (str "## ").isPrefixOf line then
        formatLines { st with prevEmpty := false }
          ((if nextNonblank rest then [[]] else []) ++
            ('*' :: (headerTitle 3 line ++ ['*'])) :: acc) rest
      else if (str "### ").isPrefixOf line then
        formatLines { st with prevEmpty := false }
          ((if nextNonblank rest then [[]] else []) ++
            ('•' :: ' ' :: '*' :: (headerTitle 4 line ++ ['*'])) :: acc) rest
      else if bulletCond line then
        formatLines
          { inList := true, listIndent := (line.takeWhile isPySpace).length
          , prevEmpty := false }
          (bulletOut st.listIndent line :: acc) rest
      else if numberedCond line then
        formatLines { st with inList := true, prevEmpty := false }
          (numberedOut line :: acc) rest
      else if (str "```").isPrefixOf line then
        formatLines { st with prevEmpty := false } (line :: acc) rest
      else if line.head? == some '`' && line.getLast? == some '`' &&
          decide (2 < line.length) then
        formatLines { st with prevEmpty := false } (line :: acc) rest
      else
        let pl := process_inline_formatting (subBoldColonLine line)
        if st.inList = true ∧ ¬(bulletCond pl = true ∨ numberedCond pl = true) then
          if (stripPy pl).isEmpty then
            formatLines { st with prevEmpty := false } (pl :: acc) rest
          else
            match acc.head? with
            | none => none
            | some last =>
              formatLines { st with inList := false, prevEmpty := false }
                (pl :: ((if last.isEmpty then [] else [[]]) ++ acc)) rest
        else formatLines { st with prevEmpty := false } (pl :: acc) rest

/-- `_format_markdown_for_slack` (lines 121-291): widen single line breaks,
process line by line, re-join, collapse excessive blank runs. -/
def format_markdown_for_slack (text : Str) : Option Str :=
  (formatLines ⟨false, 0, false⟩ [] (splitOnNl (prepass text))).map
    fun ls => collapse3 (joinNl ls)

/-! ## Block chunker and layout builder (`slack_poster.py` lines 314-431) -/

/-- Python slice `s[a:b]` for `0 ≤ a ≤ b`. -/
def pySlice (s : Str) (a b : Nat) : Str := (s.take b).drop a

/-- `s.rfind(pat, a, b)`: the largest start index of an occurrence of `pat`
lying fully inside `[a, min b (len s))`, as an `Option`. -/
def rfindSub (s pat : Str) (a b : Nat) : Option Nat :=
  ((List.range (min b s.length + 1)).filter fun i =>
    decide (a ≤ i) && decide (i + pat.length ≤ min b s.length) &&
      (pySlice s i (i + pat.length) == pat)).getLast?

/-- `s.rfind(pat, a, b)` with Python's `-1` convention. -/
def rfindI (s pat : Str) (a b : Nat) : Int :=
  match rfindSub s pat a b with
  | some i => (i : Int)
  | none => -1

/-- One iteration of the chunk-boundary computation (lines 388-404): within
the window `[start, start+1900)`, prefer the last paragraph break after
`start`, else the last newline, else the last space, else the window
boundary; no search is attempted when the window reaches the end of the
text. -/
def chunkEnd (s : Str) (start : Nat) : Nat :=
  if start + 1900 < s.length then
    let pb := rfindI s (str "\n\n") start (start + 1900)
    if (start : Int) < pb then pb.toNat + 2
    else
      let nl := rfindI s (str "\n") start (start + 1900)
      if (start : Int) < nl then nl.toNat + 1
      else
        let sp := rfindI s (str " ") start (start + 1900)
        if (start : Int) < sp then sp.toNat + 1
        else start + 1900
  else start + 1900

/-- The chunk-splitting loop (`while start < len(formatted_summary)`, lines
386-418), with fuel bounding the number of iterations; `none` models a loop
that would still be running when the fuel runs out. -/
def chunksFromF (s : Str) : Nat → Nat → Option (List Str)
  | 0, start => if s.length ≤ start then some [] else none
  | fuel + 1, start =>
    if start < s.length then
      (chunksFromF s fuel (chunkEnd s start)).map fun cs =>
        pySlice s start (chunkEnd s start) :: cs
    else some []

/-- The `paper` dictionary consumed by `_format_paper_blocks`; every key is
read with `dict.get`, so every field is optional. -/
structure PaperDict where
  title : Option Str
  arxiv_id : Option Str
  upvotes : Option Int
  pdf_url : Option Str
  summary : Option Str
  date : Option Str
deriving DecidableEq

/-- A Slack layout block, tagged by its `type` field. -/
inductive SlackBlock where
  | header (text : Str)
  | divider
  | fieldsSection (fields : List Str)
  | textSection (text : Str)
  | context (text : Str)
deriving DecidableEq

/-- Decimal rendering of an integer, as in an f-string. -/
def intStr (n : Int) : Str := (toString n).data

/-- F-string rendering of a `dict.get` result with no default: a missing key
renders as `None`. -/
def pyOptStr (o : Option Str) : Str :=
  match o with
  | some s => s
  | none => str "None"

/-- The five fixed header blocks plus the summary-header block
(lines 324-374). -/
def fixedBlocks (paper : PaperDict) : List SlackBlock :=
  [ .header (truncate_text (paper.title.getD (str "Unknown title")) 150)
  , .divider
  , .fieldsSection
      [ str "*Date:*" ++ '\n' :: paper.date.getD (str "Unknown")
      , str "*arXiv ID:*" ++ '\n' :: (str "<https://arxiv.org/abs/" ++
          pyOptStr paper.arxiv_id ++ '|' :: (pyOptStr paper.arxiv_id ++ ['>'])) ]
  , .fieldsSection
      [ str "*Upvotes:* " ++ intStr (paper.upvotes.getD 0) ++ ' ' ::
          (if 5 < paper.upvotes.getD 0 then ['🔥'] else [])
      , str "*<" ++ paper.pdf_url.getD [] ++ str "|View the full paper PDF>*" ]
  , .divider
  , .textSection (str "*AI-Generated Summary:*") ]

/-- The trailing context block (lines 421-429). -/
def contextBlock (paper : PaperDict) : SlackBlock :=
  .context (str "<https://arxiv.org/abs/" ++ pyOptStr paper.arxiv_id ++
    str "|View on arXiv> • Generated by AI Paper Agent")

/-- The body chunks of a paper's layout: the summary (or its absent-key
fallback) transduced and split (lines 376-418). -/
def paperBodyChunks (paper : PaperDict) : Option (List Str) :=
  (format_markdown_for_slack (paper.summary.getD (str "No summary available."))).bind
    fun fs => chunksFromF fs fs.length 0

/-- `_format_paper_blocks` (lines 314-431): fixed blocks, one section block
per chunk hard-truncated to 1950 characters, and the context block. -/
def format_paper_blocks (paper : PaperDict) : Option (List SlackBlock) :=
  (paperBodyChunks paper).map fun chunks =>
    fixedBlocks paper ++
      chunks.map (fun c => .textSection (truncate_text c 1950)) ++
      [contextBlock paper]

/-- Modelled from the spec for comparison with `chunkEnd`: the largest
position of an occurrence of `pat` strictly after `a` lying fully inside the
window. -/
def lastPosStrict (s pat : Str) (a b : Nat) : Option Nat :=
  ((List.range (b + 1)).filter fun i =>
    decide (a < i) && decide (i + pat.length ≤ min b s.length) &&
      (pySlice s i (i + pat.length) == pat)).getLast?

/-- One preference stage of the spec-side boundary search: end after the
found occurrence, else fall through. -/
def specStage (o : Option Nat) (off rest : Nat) : Nat :=
  match o with
  | some i => i + off
  | none => rest

/-- Modelled from the spec's boundary-search description for claim C6: each
chunk ends after the last double-newline strictly after the chunk start
within the window `[start, start+1900)`, else after the last newline, else
after the last space, else at the window boundary; the final window (one
reaching the end of the text) is consumed whole. -/
def specBoundary (s : Str) (start : Nat) : Nat :=
  if start + 1900 < s.length then
    specStage (lastPosStrict s (str "\n\n") start (start + 1900)) 2
      (specStage (lastPosStrict s (str "\n") start (start + 1900)) 1
        (specStage (lastPosStrict s (str " ") start (start + 1900)) 1
          (start + 1900)))
  else start + 1900

/-- Whether a string contains two adjacent occurrences of `c` — the opener
every double-marker pattern of `_process_inline_formatting` requires.  A
string with no doubled asterisk and no doubled underscore is already in the
single-marker target dialect. -/
def hasDoubled (c : Char) : Str → Bool
  | a :: b :: rest => (a == c && b == c) || hasDoubled c (b :: rest)
  | _ => false

/-- Concrete data exercising claim C1: the nearer date 2025-03-10 holds a
5-upvote paper while the earlier in-window date 2025-03-09 holds a 100-upvote
paper. -/
def c1Papers : PapersDF :=
  { rows := [ { arxiv_id := str "A", date := str "2025-03-10", created := [] }
            , { arxiv_id := str "B", date := str "2025-03-09", created := [] } ]
  , hasDate := true, hasCreated := false }

def c1Stats : List StatsRow :=
  [ { arxiv_id := str "A", upvotes := 5 }, { arxiv_id := str "B", upvotes := 100 } ]

def c1RowA : Row :=
  { arxiv_id := str "A", date := str "2025-03-10", created := [], upvotes := 5
  , score := 0 }

/-- A paper dictionary whose summary key is present but holds the empty
string. -/
def emptySummaryPaper : PaperDict :=
  { title := none, arxiv_id := none, upvotes := none, pdf_url := none
  , summary := some [], date := none }

/-- A fully populated paper dictionary with a short summary. -/
def samplePaper : PaperDict :=
  { title := some (str "T"), arxiv_id := some (str "2304.1")
  , upvotes := some 7, pdf_url := some (str "u")
  , summary := some (str "hi"), date := some (str "2025-01-01") }

/-! ## General helper lemmas -/

theorem sortDescBy_perm (f : Row → Int) (l : List Row) :
    List.Perm (sortDescBy f l) l :=
  List.perm_insertionSort _ l

theorem perm_eq_nil_iff {α : Type} {l1 l2 : List α} (h : List.Perm l1 l2) :
    l1 = [] ↔ l2 = [] := by
  constructor
  · intro he; subst he; exact h.symm.eq_nil
  · intro he; subst he; exact h.eq_nil

theorem head?_mem {α : Type} {l : List α} {a : α} (h : l.head? = some a) :
    a ∈ l := by
  cases l with
  | nil => simp at h
  | cons x t => simp at h; subst h; exact List.mem_cons_self x t

/-- Sorting the candidate table permutes every per-day filter result. -/
theorem selectForDate_perm (hasDate hasCreated : Bool) (f : Row → Int)
    (rows : List Row) (ds : Str) :
    List.Perm (selectForDate hasDate hasCreated (sortDescBy f rows) ds)
      (selectForDate hasDate hasCreated rows ds) := by
  have hp : List.Perm (sortDescBy f rows) rows := List.perm_insertionSort _ rows
  unfold selectForDate
  cases hasDate with
  | false =>
    cases hasCreated with
    | false => simp
    | true => simpa using hp.filter _
  | true =>
    have h1 := hp.filter (fun r => ds.isPrefixOf r.date)
    have h2 := hp.filter (fun r => splitT r.created == ds)
    simp only [if_pos rfl, eq_self_iff_true, if_true]
    by_cases he : ((sortDescBy f rows).filter fun r => ds.isPrefixOf r.date).isEmpty
    · have he2 : (rows.filter fun r => ds.isPrefixOf r.date).isEmpty := by
        rw [List.isEmpty_iff] at he ⊢
        exact (perm_eq_nil_iff h1).mp he
      rw [if_pos he, if_pos he2]
      cases hasCreated with
      | false => simp
      | true => simpa using h2
    · have he2 : ¬(rows.filter fun r => ds.isPrefixOf r.date).isEmpty := by
        rw [List.isEmpty_iff] at he ⊢
        intro hc
        exact he ((perm_eq_nil_iff h1).mpr hc)
      rw [if_neg he, if_neg he2]
      exact h1

/-- A per-day filter of a table sorted descending by `f` is itself sorted. -/
theorem selectForDate_sorted (hasDate hasCreated : Bool) (f : Row → Int)
    (rows : List Row) (ds : Str) :
    List.Sorted (rankDesc f) (selectForDate hasDate hasCreated
      (sortDescBy f rows) ds) := by
  have hs : List.Sorted (rankDesc f) (sortDescBy f rows) :=
    List.sorted_insertionSort _ rows
  unfold selectForDate
  cases hasDate with
  | false =>
    cases hasCreated with
    | false => simp
    | true => simpa using hs.filter _
  | true =>
    simp only [if_pos rfl, eq_self_iff_true, if_true]
    by_cases he : ((sortDescBy f rows).filter fun r => ds.isPrefixOf r.date).isEmpty
    · rw [if_pos he]
      cases hasCreated with
      | false => simp
      | true => simpa using hs.filter _
    · rw [if_neg he]
      exact hs.filter _

/-- The head of a sorted candidate list bounds the key of every member. -/
theorem sorted_head_bound (f : Row → Int) {l : List Row} {r : Row}
    (hs : List.Sorted (rankDesc f) l) (hh : l.head? = some r) :
    ∀ q ∈ l, f q ≤ f r := by
  cases l with
  | nil => simp at hh
  | cons x t =>
    simp at hh; subst hh
    intro q hq
    rcases List.mem_cons.mp hq with hq | hq
    · subst hq; exact le_refl _
    · exact List.rel_of_sorted_cons hs q hq

/-- Every successful scan stops at the first non-empty check date: the result
is the head of that date's filter, and all nearer dates filter to nothing. -/
theorem scanDates_some (hasDate hasCreated : Bool) (rows : List Row)
    (target : Date) :
    ∀ (n db : Nat) (r : Row),
      scanDates hasDate hasCreated rows target db n = some r →
      ∃ k, k < n ∧
        (selectForDate hasDate hasCreated rows
          (fmtDate (target.subDays (db + k)))).head? = some r ∧
        ∀ j, j < k →
          selectForDate hasDate hasCreated rows
            (fmtDate (target.subDays (db + j))) = [] := by
  intro n
  induction n with
  | zero => intro db r h; simp [scanDates] at h
  | succ m ih =>
    intro db r h
    rw [scanDates] at h
    cases hh : (selectForDate hasDate hasCreated rows
        (fmtDate (target.subDays db))).head? with
    | some r0 =>
      rw [hh] at h
      simp at h
      subst h
      exact ⟨0, Nat.succ_pos m, by simpa using hh, by omega⟩
    | none =>
      rw [hh] at h
      simp at h
      obtain ⟨k, hk, hhead, hprev⟩ := ih (db + 1) r h
      refine ⟨k + 1, by omega, ?_, ?_⟩
      · have : db + (k + 1) = db + 1 + k := by omega
        rw [this]; exact hhead
      · intro j hj
        cases j with
        | zero =>
          simp only [Nat.add_zero]
          exact List.head?_eq_none_iff.mp hh
        | succ i =>
          have : db + (i + 1) = db + 1 + i := by omega
          rw [this]
          exact hprev i (by omega)

/-- A scan returns nothing exactly when every check date filters to nothing. -/
theorem scanDates_none_iff (hasDate hasCreated : Bool) (rows : List Row)
    (target : Date) :
    ∀ (n db : Nat),
      scanDates hasDate hasCreated rows target db n = none ↔
      ∀ k, k < n →
        selectForDate hasDate hasCreated rows
          (fmtDate (target.subDays (db + k))) = [] := by
  intro n
  induction n with
  | zero => intro db; simp [scanDates]
  | succ m ih =>
    intro db
    rw [scanDates]
    cases hh : (selectForDate hasDate hasCreated rows
        (fmtDate (target.subDays db))).head? with
    | some r0 =>
      simp only []
      constructor
      · intro h; simp at h
      · intro h
        have h0 := h 0 (Nat.succ_pos m)
        rw [Nat.add_zero] at h0
        rw [h0] at hh
        simp at hh
    | none =>
      simp only []
      rw [ih (db + 1)]
      constructor
      · intro h k hk
        cases k with
        | zero =>
          rw [Nat.add_zero]
          exact List.head?_eq_none_iff.mp hh
        | succ i =>
          have : db + (i + 1) = db + 1 + i := by omega
          rw [this]
          exact h i (by omega)
      · intro h k hk
        have : db + 1 + k = db + (k + 1) := by omega
        rw [this]
        exact h (k + 1) (by omega)

/-! ## Claim C1 -/

/-- Claim C1: whenever the primary-served resolver returns a paper, that paper
belongs to the nearest date in the window (no strictly nearer date has any
matching row), and its upvote count bounds the upvotes of every row matching
that same date — the globally-sorted-then-scan loop stops at the first
matching date.  Conversely, whenever some date in the window has a matching
row, the resolver returns a paper. -/
theorem resolver_nearest_date_top (papers : PapersDF) (stats : List StatsRow)
    (legacyLoad : Except Str LegacyDF) (target : Date) (maxDays : Nat) :
    ((∃ db, db ≤ maxDays ∧
        primarySelect papers stats (fmtDate (target.subDays db)) ≠ []) →
      ∃ r, get_top_paper_by_date (.ok (papers, stats)) legacyLoad target maxDays
        = .ok r) ∧
    (∀ r, get_top_paper_by_date (.ok (papers, stats)) legacyLoad target maxDays
        = .ok r →
      ∃ db, db ≤ maxDays ∧
        r ∈ primarySelect papers stats (fmtDate (target.subDays db)) ∧
        (∀ db2, db2 < db →
          primarySelect papers stats (fmtDate (target.subDays db2)) = []) ∧
        (∀ q ∈ primarySelect papers stats (fmtDate (target.subDays db)),
          q.upvotes ≤ r.upvotes)) := by
  constructor
  · intro ⟨db, hdb, hne⟩
    rw [get_top_paper_by_date]
    cases hscan : scanDates papers.hasDate papers.hasCreated
        (sortDescBy (fun r => r.upvotes) (mergeRows papers.rows stats)) target 0
        (maxDays + 1) with
    | some r => exact ⟨r, by simp [hscan]⟩
    | none =>
      exfalso
      have hall := (scanDates_none_iff _ _ _ _ _ _).mp hscan db (by omega)
      rw [Nat.zero_add] at hall
      have hperm := selectForDate_perm papers.hasDate papers.hasCreated
        (fun r => r.upvotes) (mergeRows papers.rows stats)
        (fmtDate (target.subDays db))
      exact hne ((perm_eq_nil_iff hperm).mp hall)
  · intro r h
    rw [get_top_paper_by_date] at h
    cases hscan : scanDates papers.hasDate papers.hasCreated
        (sortDescBy (fun r => r.upvotes) (mergeRows papers.rows stats)) target 0
        (maxDays + 1) with
    | none => rw [hscan] at h; simp at h
    | some r0 =>
      rw [hscan] at h
      simp at h
      subst h
      obtain ⟨k, hk, hhead, hprev⟩ := scanDates_some _ _ _ _ _ _ _ hscan
      rw [Nat.zero_add] at hhead
      refine ⟨k, by omega, ?_, ?_, ?_⟩
      · have hperm := selectForDate_perm papers.hasDate papers.hasCreated
          (fun r => r.upvotes) (mergeRows papers.rows stats)
          (fmtDate (target.subDays k))
        exact hperm.mem_iff.mp (head?_mem hhead)
      · intro db2 hdb2
        have := hprev db2 hdb2
        rw [Nat.zero_add] at this
        have hperm := selectForDate_perm papers.hasDate papers.hasCreated
          (fun r => r.upvotes) (mergeRows papers.rows stats)
          (fmtDate (target.subDays db2))
        exact (perm_eq_nil_iff hperm).mp this
      · intro q hq
        have hperm := selectForDate_perm papers.hasDate papers.hasCreated
          (fun r => r.upvotes) (mergeRows papers.rows stats)
          (fmtDate (target.subDays k))
        have hqs := hperm.mem_iff.mpr hq
        have hsorted := selectForDate_sorted papers.hasDate papers.hasCreated
          (fun r => r.upvotes) (mergeRows papers.rows stats)
          (fmtDate (target.subDays k))
        exact sorted_head_bound (fun r => r.upvotes) hsorted hhead q hqs

/-- The resolver returns the nearer, lower-upvoted paper of `c1Papers`. -/
theorem resolver_nearest_date_top_witness :
    ∃ db, db ≤ 7 ∧
      c1RowA ∈ primarySelect c1Papers c1Stats
        (fmtDate (Date.subDays ⟨2025, 3, 10⟩ db)) ∧
      (∀ db2, db2 < db →
        primarySelect c1Papers c1Stats (fmtDate (Date.subDays ⟨2025, 3, 10⟩ db2))
          = []) ∧
      (∀ q ∈ primarySelect c1Papers c1Stats
          (fmtDate (Date.subDays ⟨2025, 3, 10⟩ db)),
        q.upvotes ≤ c1RowA.upvotes) :=
  (resolver_nearest_date_top c1Papers c1Stats (.error []) ⟨2025, 3, 10⟩ 7).2
    c1RowA (by decide)

/-! ## Claim C2 -/

/-- Concrete refutation of claim C2: with the primary load failing and the
legacy dataset loading as an empty table, the window contains no matching
rows, yet the caller receives the "no papers found" message re-wrapped as a
dataset-load failure rather than the distinct not-found error. -/
theorem notfound_rewrapped_on_fallback_counterexample :
    get_top_paper_by_date (.error (str "boom"))
        (.ok { rows := [], hasDate := true, hasCreated := true
             , hasUpvotes := true, hasScore := true }) ⟨2025, 3, 15⟩ 7
      = .error (str "Failed to load datasets: No papers found within 7 days of 2025-03-15") ∧
    (str "Failed to load datasets: No papers found within 7 days of 2025-03-15")
      ≠ noPapersMsg ⟨2025, 3, 15⟩ 7 := by
  constructor
  · decide
  · decide

/-- Claim C2 (amended): when every date in the window filters to nothing, the
resolver fails with the distinct not-found error naming the target date and
window size on the primary-served path; on the fallback path the same
not-found message is produced by the legacy search but reaches the caller
re-wrapped under the `"Failed to load datasets: "` prefix (lines 88-92). -/
theorem window_empty_error_routing (papers : PapersDF) (stats : List StatsRow)
    (legacyDf : LegacyDF) (target : Date) (maxDays : Nat) :
    ((∀ db, db ≤ maxDays →
        primarySelect papers stats (fmtDate (target.subDays db)) = []) →
      ∀ legacyLoad,
        get_top_paper_by_date (.ok (papers, stats)) legacyLoad target maxDays
          = .error (noPapersMsg target maxDays)) ∧
    ((∀ db, db ≤ maxDays →
        legacySelect legacyDf (fmtDate (target.subDays db)) = []) →
      ∀ e, get_top_paper_by_date (.error e) (.ok legacyDf) target maxDays
          = .error (str "Failed to load datasets: " ++ noPapersMsg target maxDays)) := by
  constructor
  · intro h legacyLoad
    rw [get_top_paper_by_date]
    have hscan : scanDates papers.hasDate papers.hasCreated
        (sortDescBy (fun r => r.upvotes) (mergeRows papers.rows stats)) target 0
        (maxDays + 1) = none := by
      rw [scanDates_none_iff]
      intro k hk
      rw [Nat.zero_add]
      have hperm := selectForDate_perm papers.hasDate papers.hasCreated
        (fun r => r.upvotes) (mergeRows papers.rows stats)
        (fmtDate (target.subDays k))
      exact (perm_eq_nil_iff hperm).mpr (h k (by omega))
    rw [hscan]
  · intro h e
    rw [get_top_paper_by_date, get_top_paper_from_legacy_dataset]
    have hscan : ∀ ranked : List Row,
        List.Perm ranked legacyDf.rows →
        scanDates legacyDf.hasDate legacyDf.hasCreated ranked target 0
          (maxDays + 1) = none := by
      intro ranked hperm
      rw [scanDates_none_iff]
      intro k hk
      rw [Nat.zero_add]
      have hp2 : List.Perm
          (selectForDate legacyDf.hasDate legacyDf.hasCreated ranked
            (fmtDate (target.subDays k)))
          (selectForDate legacyDf.hasDate legacyDf.hasCreated legacyDf.rows
            (fmtDate (target.subDays k))) := by
        unfold selectForDate
        cases legacyDf.hasDate with
        | false =>
          cases legacyDf.hasCreated with
          | false => simp
          | true => simpa using hperm.filter _
        | true =>
          have h1 := hperm.filter (fun r =>
            (fmtDate (target.subDays k)).isPrefixOf r.date)
          have h2 := hperm.filter (fun r =>
            splitT r.created == fmtDate (target.subDays k))
          simp only [if_pos rfl, eq_self_iff_true, if_true]
          by_cases hemp : (ranked.filter fun r =>
              (fmtDate (target.subDays k)).isPrefixOf r.date).isEmpty
          · have hemp2 : (legacyDf.rows.filter fun r =>
                (fmtDate (target.subDays k)).isPrefixOf r.date).isEmpty := by
              rw [List.isEmpty_iff] at hemp ⊢
              exact (perm_eq_nil_iff h1).mp hemp
            rw [if_pos hemp, if_pos hemp2]
            cases legacyDf.hasCreated with
            | false => simp
            | true => simpa using h2
          · have hemp2 : ¬(legacyDf.rows.filter fun r =>
                (fmtDate (target.subDays k)).isPrefixOf r.date).isEmpty := by
              rw [List.isEmpty_iff] at hemp ⊢
              intro hc
              exact hemp ((perm_eq_nil_iff h1).mpr hc)
            rw [if_neg hemp, if_neg hemp2]
            exact h1
      exact (perm_eq_nil_iff hp2).mpr (h k (by omega))
    by_cases hu : legacyDf.hasUpvotes
    · rw [if_pos hu, hscan _ (sortDescBy_perm (fun r => r.upvotes) legacyDf.rows)]
    · rw [if_neg hu]
      by_cases hsc : legacyDf.hasScore
      · rw [if_pos hsc, hscan _ (sortDescBy_perm (fun r => r.score) legacyDf.rows)]
      · rw [if_neg hsc, hscan _ (List.Perm.refl _)]

theorem window_empty_error_routing_witness :
    get_top_paper_by_date
        (.ok ({ rows := [], hasDate := true, hasCreated := true }, []))
        (.error []) ⟨2025, 3, 15⟩ 7
      = .error (noPapersMsg ⟨2025, 3, 15⟩ 7) :=
  (window_empty_error_routing { rows := [], hasDate := true, hasCreated := true }
    []
    { rows := [], hasDate := true, hasCreated := true, hasUpvotes := true
    , hasScore := true } ⟨2025, 3, 15⟩ 7).1 (by decide) (.error [])

/-! ## Claim C7 -/

/-- Claim C7: every record returned by `get_top_paper_pdf_url` has a
`paper_id` free of any `v<digits>` version suffix (indeed free of `v`
entirely), its `pdf_url` is exactly the fixed template instantiated with that
same returned `paper_id`, and whenever the selected row's identifier contains
a `v` (in particular a `v<digits>` suffix) the returned `paper_id` is the
substring before the first `v`. -/
theorem pdf_url_from_clean_paper_id (top_paper : TopPaperDict) :
    (get_top_paper_pdf_url top_paper).pdf_url
      = arxivPdfUrl (get_top_paper_pdf_url top_paper).paper_id ∧
    'v' ∉ (get_top_paper_pdf_url top_paper).paper_id ∧
    hasVersionSuffix (get_top_paper_pdf_url top_paper).paper_id = false ∧
    ('v' ∈ top_paper.paper_id.getD (top_paper.arxiv_id.getD []) →
      (get_top_paper_pdf_url top_paper).paper_id
        = (top_paper.paper_id.getD (top_paper.arxiv_id.getD [])).takeWhile
            (fun c => c != 'v')) ∧
    (hasVersionSuffix (top_paper.paper_id.getD (top_paper.arxiv_id.getD []))
        = true →
      (get_top_paper_pdf_url top_paper).paper_id
        = (top_paper.paper_id.getD (top_paper.arxiv_id.getD [])).takeWhile
            (fun c => c != 'v')) := by
  have hnotin : ∀ s : Str, 'v' ∉ s.takeWhile (fun c => c != 'v') := by
    intro s hmem
    have := List.mem_takeWhile_imp hmem
    simp at this
  have hsuffix_mem : ∀ s : Str, hasVersionSuffix s = true → 'v' ∈ s := by
    intro s hs
    rw [hasVersionSuffix] at hs
    simp only [Bool.and_eq_true, beq_iff_eq] at hs
    exact List.mem_reverse.mp (List.mem_of_mem_drop (head?_mem hs.2))
  have hpi_def : (get_top_paper_pdf_url top_paper).paper_id
      = (if 'v' ∈ top_paper.paper_id.getD (top_paper.arxiv_id.getD []) then
          (top_paper.paper_id.getD (top_paper.arxiv_id.getD [])).takeWhile
            (fun c => c != 'v')
        else top_paper.paper_id.getD (top_paper.arxiv_id.getD [])) := rfl
  have hurl_def : (get_top_paper_pdf_url top_paper).pdf_url
      = arxivPdfUrl
          (if 'v' ∈ top_paper.paper_id.getD (top_paper.arxiv_id.getD []) then
            (top_paper.paper_id.getD (top_paper.arxiv_id.getD [])).takeWhile
              (fun c => c != 'v')
          else top_paper.paper_id.getD (top_paper.arxiv_id.getD [])) := rfl
  by_cases hv : 'v' ∈ top_paper.paper_id.getD (top_paper.arxiv_id.getD [])
  · rw [hurl_def, hpi_def, if_pos hv]
    refine ⟨rfl, hnotin _, ?_, fun _ => rfl, fun _ => rfl⟩
    cases hvs : hasVersionSuffix
        ((top_paper.paper_id.getD (top_paper.arxiv_id.getD [])).takeWhile
          (fun c => c != 'v')) with
    | false => rfl
    | true => exact absurd (hsuffix_mem _ hvs) (hnotin _)
  · rw [hurl_def, hpi_def, if_neg hv]
    refine ⟨rfl, hv, ?_, fun h => absurd h hv, ?_⟩
    · cases hvs : hasVersionSuffix
          (top_paper.paper_id.getD (top_paper.arxiv_id.getD [])) with
      | false => rfl
      | true => exact absurd (hsuffix_mem _ hvs) hv
    · intro h
      exact absurd (hsuffix_mem _ h) hv

theorem pdf_url_from_clean_paper_id_witness :
    (get_top_paper_pdf_url
        { paper_id := some (str "2304.12345v2"), arxiv_id := none
        , title := none, authors := none, upvotes := none, date := none }).paper_id
      = (str "2304.12345v2").takeWhile (fun c => c != 'v') :=
  (pdf_url_from_clean_paper_id
    { paper_id := some (str "2304.12345v2"), arxiv_id := none, title := none
    , authors := none, upvotes := none, date := none }).2.2.2.2 (by decide)

/-! ## Claim C9 -/

/-- Concrete refutation of claim C9: with limit `2` (below the 3-character
ellipsis), truncating a longer text returns 6 characters, not exactly 2. -/
theorem truncate_text_short_limit_counterexample :
    truncate_text (str "abcd") 2 = str "abc..." ∧
    (truncate_text (str "abcd") 2).length ≠ 2 := by
  constructor
  · decide
  · decide

/-- Claim C9 (amended): `_truncate_text` returns the text unchanged when it
fits; for limits `n ≥ 3` an over-long text is cut to exactly `n` characters
ending in `"..."`; and the spec's concrete 25-character case holds.  (For
`n < 3` the negative Python slice makes the result longer than `n`.) -/
theorem truncate_text_spec (text : Str) (n : Nat) :
    (text.length ≤ n → truncate_text text n = text) ∧
    (3 ≤ n → n < text.length →
      (truncate_text text n).length = n ∧
      (truncate_text text n).drop (n - 3) = str "...") ∧
    truncate_text (str "This is a very long text that should be truncated") 25
      = str "This is a very long te..." := by
  refine ⟨?_, ?_, by decide⟩
  · intro h
    rw [truncate_text, if_pos h]
  · intro h3 hlong
    have hcond : ¬ text.length ≤ n := by omega
    have hk : (0 : Int) ≤ (n : Int) - 3 := by omega
    have hslice : pySliceTo text ((n : Int) - 3) = text.take (n - 3) := by
      rw [pySliceTo, if_pos hk]
      congr 1
      omega
    rw [truncate_text, if_neg hcond, hslice]
    constructor
    · simp [str]
      omega
    · have hlen : (text.take (n - 3)).length = n - 3 := by
        rw [List.length_take]
        omega
      rw [List.drop_append_of_le_length (le_of_eq hlen.symm)]
      rw [List.drop_eq_nil_of_le (le_of_eq hlen)]
      simp

theorem truncate_text_spec_witness :
    truncate_text (str "Short text") 20 = str "Short text" ∧
    (truncate_text (str "abcdefgh") 5).length = 5 :=
  ⟨(truncate_text_spec (str "Short text") 20).1 (by decide),
   ((truncate_text_spec (str "abcdefgh") 5).2.1 (by decide) (by decide)).1⟩

/-! ## Transducer helper lemmas -/

theorem cons_tail_append_ne_nil {α : Type} (o : List α) (x : α) (a : List α) :
    o ++ x :: a ≠ [] := by
  cases o <;> simp

/-- A newline-free string passes through the line-break widening unchanged. -/
theorem prepass_no_nl : ∀ u : Str, '\n' ∉ u → prepass u = u
  | [], _ => rfl
  | [_], _ => rfl
  | [_, _], _ => rfl
  | a :: b :: c :: rest, h => by
    have hb : b ≠ '\n' := fun hbe => h (by simp [hbe])
    rw [prepass, if_neg (by tauto)]
    have htail : '\n' ∉ b :: c :: rest := fun hm => h (List.mem_cons_of_mem a hm)
    rw [prepass_no_nl (b :: c :: rest) htail]

/-- The widening pass leaves a leading newline followed by newline-free text
unchanged. -/
theorem prepass_nl_cons : ∀ t : Str, '\n' ∉ t → prepass ('\n' :: t) = '\n' :: t := by
  intro t ht
  match t with
  | [] => rfl
  | [_] => rfl
  | x :: y :: t3 =>
    rw [prepass, if_neg (by tauto)]
    rw [prepass_no_nl (x :: y :: t3) ht]

/-- Two newline-free non-empty lines joined by a single newline come out of
the widening pass joined by a double newline. -/
theorem prepass_single_join : ∀ s t : Str, s ≠ [] → t ≠ [] →
    '\n' ∉ s → '\n' ∉ t → prepass (s ++ '\n' :: t) = s ++ '\n' :: '\n' :: t
  | [], _, hs, _, _, _ => absurd rfl hs
  | [a], t, _, ht, hns, hnt => by
    have ha : a ≠ '\n' := fun hae => hns (by simp [hae])
    match t with
    | [] => exact absurd rfl ht
    | c :: t2 =>
      have hc : c ≠ '\n' := fun hce => hnt (by simp [hce])
      have ht2 : '\n' ∉ t2 := fun hm => hnt (List.mem_cons_of_mem c hm)
      show prepass (a :: '\n' :: c :: t2) = a :: '\n' :: '\n' :: c :: t2
      rw [prepass, if_pos (by tauto)]
      rw [prepass_no_nl t2 ht2]
  | a :: b :: s3, t, _, ht, hns, hnt => by
    have hb : b ≠ '\n' := fun hbe => hns (by simp [hbe])
    have hs3 : '\n' ∉ b :: s3 := fun hm => hns (List.mem_cons_of_mem a hm)
    have hrec := prepass_single_join (b :: s3) t (by simp) ht hs3 hnt
    match s3 with
    | [] =>
      show prepass (a :: b :: '\n' :: t) = a :: b :: '\n' :: '\n' :: t
      rw [prepass, if_neg (by tauto)]
      rw [show (b :: [] : Str) ++ '\n' :: t = b :: '\n' :: t from rfl] at hrec
      rw [hrec]
      rfl
    | c3 :: s4 =>
      show prepass (a :: b :: c3 :: (s4 ++ '\n' :: t))
          = a :: b :: c3 :: (s4 ++ '\n' :: '\n' :: t)
      rw [prepass, if_neg (by tauto)]
      rw [show (b :: c3 :: s4 : Str) ++ '\n' :: t = b :: c3 :: (s4 ++ '\n' :: t)
        from rfl] at hrec
      rw [hrec]
      rfl

/-- Two newline-free non-empty lines joined by a double newline pass through
the widening unchanged. -/
theorem prepass_double_join : ∀ s t : Str, s ≠ [] → t ≠ [] →
    '\n' ∉ s → '\n' ∉ t →
    prepass (s ++ '\n' :: '\n' :: t) = s ++ '\n' :: '\n' :: t
  | [], _, hs, _, _, _ => absurd rfl hs
  | [a], t, _, ht, hns, hnt => by
    have ha : a ≠ '\n' := fun hae => hns (by simp [hae])
    show prepass (a :: '\n' :: '\n' :: t) = a :: '\n' :: '\n' :: t
    rw [prepass, if_neg (by tauto)]
    rw [show prepass ('\n' :: '\n' :: t) = '\n' :: '\n' :: t from ?_]
    · match t, ht with
      | c :: t2, _ =>
        rw [prepass, if_neg (by tauto)]
        rw [prepass_nl_cons (c :: t2) hnt]
  | a :: b :: s3, t, _, ht, hns, hnt => by
    have hb : b ≠ '\n' := fun hbe => hns (by simp [hbe])
    have hs3 : '\n' ∉ b :: s3 := fun hm => hns (List.mem_cons_of_mem a hm)
    have hrec := prepass_double_join (b :: s3) t (by simp) ht hs3 hnt
    match s3 with
    | [] =>
      show prepass (a :: b :: '\n' :: '\n' :: t) = a :: b :: '\n' :: '\n' :: t
      rw [prepass, if_neg (by tauto)]
      rw [show (b :: [] : Str) ++ '\n' :: '\n' :: t = b :: '\n' :: '\n' :: t
        from rfl] at hrec
      rw [hrec]
    | c3 :: s4 =>
      show prepass (a :: b :: c3 :: (s4 ++ '\n' :: '\n' :: t))
          = a :: b :: c3 :: (s4 ++ '\n' :: '\n' :: t)
      rw [prepass, if_neg (by tauto)]
      rw [show (b :: c3 :: s4 : Str) ++ '\n' :: '\n' :: t
          = b :: c3 :: (s4 ++ '\n' :: '\n' :: t) from rfl] at hrec
      rw [hrec]

/-- The line loop never hits the `formatted_lines[-1]` access with an empty
list: whenever `in_list` is true some line has already been emitted. -/
theorem formatLines_isSome : ∀ (lines : List Str) (st : FmtState) (acc : List Str),
    (st.inList = true → acc ≠ []) → (formatLines st acc lines).isSome = true := by
  intro lines
  induction lines with
  | nil => intro st acc _; rfl
  | cons line rest ih =>
    intro st acc hinv
    rw [formatLines]
    by_cases hblank : (stripPy line).isEmpty
    · rw [if_pos hblank]
      by_cases hprev : st.prevEmpty
      · rw [if_pos hprev]; exact ih st acc hinv
      · rw [if_neg hprev]; exact ih _ _ (fun _ => by simp)
    · rw [if_neg hblank]
      by_cases htitle : titleBranchCond line
      · rw [if_pos htitle]
        exact ih _ _ (fun _ => cons_tail_append_ne_nil _ _ _)
      · rw [if_neg htitle]
        by_cases hh1 : (str "# ").isPrefixOf line
        · rw [if_pos hh1]
          exact ih _ _ (fun _ => cons_tail_append_ne_nil _ _ _)
        · rw [if_neg hh1]
          by_cases hh2 : (str "## ").isPrefixOf line
          · rw [if_pos hh2]
            exact ih _ _ (fun _ => cons_tail_append_ne_nil _ _ _)
          · rw [if_neg hh2]
            by_cases hh3 : (str "### ").isPrefixOf line
            · rw [if_pos hh3]
              exact ih _ _ (fun _ => cons_tail_append_ne_nil _ _ _)
            · rw [if_neg hh3]
              by_cases hbul : bulletCond line
              · rw [if_pos hbul]; exact ih _ _ (fun _ => by simp)
              · rw [if_neg hbul]
                by_cases hnum : numberedCond line
                · rw [if_pos hnum]; exact ih _ _ (fun _ => by simp)
                · rw [if_neg hnum]
                  by_cases hcode : (str "```").isPrefixOf line
                  · rw [if_pos hcode]; exact ih _ _ (fun _ => by simp)
                  · rw [if_neg hcode]
                    by_cases htick : line.head? == some '`' &&
                        line.getLast? == some '`' && decide (2 < line.length)
                    · rw [if_pos htick]; exact ih _ _ (fun _ => by simp)
                    · rw [if_neg htick]
                      by_cases hlist : st.inList = true ∧
                          ¬(bulletCond (process_inline_formatting
                              (subBoldColonLine line)) = true ∨
                            numberedCond (process_inline_formatting
                              (subBoldColonLine line)) = true)
                      · rw [if_pos hlist]
                        by_cases hpl : (stripPy (process_inline_formatting
                            (subBoldColonLine line))).isEmpty
                        · rw [if_pos hpl]; exact ih _ _ (fun _ => by simp)
                        · rw [if_neg hpl]
                          cases hhd : acc.head? with
                          | none =>
                            exact absurd (List.head?_eq_none_iff.mp hhd)
                              (hinv hlist.1)
                          | some last => exact ih _ _ (fun _ => by simp)
                      · rw [if_neg hlist]; exact ih _ _ (fun _ => by simp)

/-- Progress of the chunk loop: each iteration strictly advances the start
position. -/
theorem chunkEnd_lt (s : Str) (start : Nat) : start < chunkEnd s start := by
  rw [chunkEnd]
  by_cases hw : start + 1900 < s.length
  · rw [if_pos hw]
    by_cases hpb : (start : Int) < rfindI s (str "\n\n") start (start + 1900)
    · rw [if_pos hpb]; omega
    · rw [if_neg hpb]
      by_cases hnl : (start : Int) < rfindI s (str "\n") start (start + 1900)
      · rw [if_pos hnl]; omega
      · rw [if_neg hnl]
        by_cases hsp : (start : Int) < rfindI s (str " ") start (start + 1900)
        · rw [if_pos hsp]; omega
        · rw [if_neg hsp]; omega
  · rw [if_neg hw]; omega

theorem mem_of_getLast? {α : Type} {l : List α} {a : α}
    (h : l.getLast? = some a) : a ∈ l := by
  induction l with
  | nil => simp at h
  | cons x t ih =>
    cases t with
    | nil => simp at h; subst h; exact List.mem_cons_self x []
    | cons y t2 =>
      rw [List.getLast?_cons_cons] at h
      exact List.mem_cons_of_mem x (ih h)

/-- A found occurrence lies inside the search window and matches. -/
theorem rfindSub_spec (s pat : Str) (a b i : Nat)
    (h : rfindSub s pat a b = some i) :
    a ≤ i ∧ i + pat.length ≤ min b s.length ∧
      pySlice s i (i + pat.length) = pat := by
  have hm := mem_of_getLast? h
  rw [List.mem_filter] at hm
  obtain ⟨-, hp⟩ := hm
  simp only [Bool.and_eq_true, decide_eq_true_eq, beq_iff_eq] at hp
  exact ⟨hp.1.1, hp.1.2, hp.2⟩

/-- A boundary hit inside the window stays inside the window. -/
theorem rfind_toNat_add_le (s pat : Str) (start b : Nat)
    (hgt : (start : Int) < rfindI s pat start b) :
    (rfindI s pat start b).toNat + pat.length ≤ min b s.length := by
  cases h : rfindSub s pat start b with
  | none =>
    exfalso
    have hI : rfindI s pat start b = -1 := by rw [rfindI, h]
    rw [hI] at hgt
    omega
  | some i =>
    have hsp := (rfindSub_spec s pat start b i h).2.1
    have hI : rfindI s pat start b = (i : Int) := by rw [rfindI, h]
    rw [hI]
    simp only [Int.toNat_ofNat]
    exact hsp

/-- Each chunk window is bounded by the 1900-character target. -/
theorem chunkEnd_le (s : Str) (start : Nat) :
    chunkEnd s start ≤ start + 1900 := by
  rw [chunkEnd]
  by_cases hw : start + 1900 < s.length
  · rw [if_pos hw]
    by_cases h1 : (start : Int) < rfindI s (str "\n\n") start (start + 1900)
    · rw [if_pos h1]
      have hb := rfind_toNat_add_le s (str "\n\n") start (start + 1900) h1
      have hl : (str "\n\n").length = 2 := rfl
      omega
    · rw [if_neg h1]
      by_cases h2 : (start : Int) < rfindI s (str "\n") start (start + 1900)
      · rw [if_pos h2]
        have hb := rfind_toNat_add_le s (str "\n") start (start + 1900) h2
        have hl : (str "\n").length = 1 := rfl
        omega
      · rw [if_neg h2]
        by_cases h3 : (start : Int) < rfindI s (str " ") start (start + 1900)
        · rw [if_pos h3]
          have hb := rfind_toNat_add_le s (str " ") start (start + 1900) h3
          have hl : (str " ").length = 1 := rfl
          omega
        · rw [if_neg h3]
  · rw [if_neg hw]

/-- Sufficient fuel makes the chunk loop terminate with a result. -/
theorem chunksFromF_isSome (s : Str) : ∀ (fuel start : Nat),
    s.length - start ≤ fuel → (chunksFromF s fuel start).isSome = true := by
  intro fuel
  induction fuel with
  | zero =>
    intro start h
    rw [chunksFromF, if_pos (by omega)]
    rfl
  | succ m ih =>
    intro start h
    rw [chunksFromF]
    by_cases hlt : start < s.length
    · rw [if_pos hlt]
      have hprog := chunkEnd_lt s start
      have := ih (chunkEnd s start) (by omega)
      obtain ⟨v, hv⟩ := Option.isSome_iff_exists.mp this
      rw [hv]
      rfl
    · rw [if_neg hlt]; rfl

theorem hasDoubled_cons_false {c a : Char} {rest : Str}
    (h : hasDoubled c (a :: rest) = false) :
    (¬(a = c ∧ rest.head? = some c)) ∧ hasDoubled c rest = false := by
  cases rest with
  | nil =>
    refine ⟨fun hc => by simp at hc, rfl⟩
  | cons b rest2 =>
    rw [hasDoubled] at h
    simp only [Bool.or_eq_false_iff, Bool.and_eq_false_iff, beq_eq_false_iff_ne]
      at h
    refine ⟨fun hc => ?_, h.2⟩
    obtain ⟨hac, hhd⟩ := hc
    simp at hhd
    rcases h.1 with hne | hne
    · exact hne hac
    · exact hne hhd

/-- With no doubled marker present, the double-marker substitution is the
identity. -/
theorem subDoubleF_id (c : Char) : ∀ (fuel : Nat) (s : Str),
    hasDoubled c s = false → subDoubleF c fuel s = s := by
  intro fuel
  induction fuel with
  | zero => intro s _; rfl
  | succ m ih =>
    intro s h
    cases s with
    | nil => rfl
    | cons a rest =>
      obtain ⟨hcond, hrest⟩ := hasDoubled_cons_false h
      rw [subDoubleF, if_neg hcond, ih rest hrest]

/-- With no doubled asterisk present, the word-or-space bold-colon
substitution is the identity. -/
theorem subStarColonWSF_id : ∀ (fuel : Nat) (s : Str),
    hasDoubled '*' s = false → subStarColonWSF fuel s = s := by
  intro fuel
  induction fuel with
  | zero => intro s _; rfl
  | succ m ih =>
    intro s h
    cases s with
    | nil => rfl
    | cons a rest =>
      obtain ⟨hcond, hrest⟩ := hasDoubled_cons_false h
      rw [subStarColonWSF, if_neg hcond, ih rest hrest]

/-- The inline-formatting pass is the identity on target-dialect text. -/
theorem process_inline_id (s : Str) (h1 : hasDoubled '*' s = false)
    (h2 : hasDoubled '_' s = false) : process_inline_formatting s = s := by
  have e0 : subStarColonWS s = s := by
    rw [subStarColonWS]; exact subStarColonWSF_id s.length s h1
  have e1 : subDouble '*' s = s := by
    rw [subDouble]; exact subDoubleF_id '*' s.length s h1
  have e2 : subDouble '_' s = s := by
    rw [subDouble]; exact subDoubleF_id '_' s.length s h2
  rw [process_inline_formatting, e0, e1, e2]

/-! ## Claim C4 -/

/-- Claim C4: the markup transducer and the block chunker are total.  The
line loop returns a result on every input — in particular the
`formatted_lines[-1]` access is always in bounds because the emitted-lines
list is non-empty whenever `in_list` is true — and the chunk loop finishes
within `len - start` iterations because every iteration strictly advances
the start position. -/
theorem transducer_and_chunker_total :
    (∀ text : Str, (format_markdown_for_slack text).isSome = true) ∧
    (∀ (s : Str) (fuel start : Nat), s.length - start ≤ fuel →
      (chunksFromF s fuel start).isSome = true) ∧
    (∀ paper : PaperDict, (format_paper_blocks paper).isSome = true) := by
  have hfmt : ∀ text : Str, (format_markdown_for_slack text).isSome = true := by
    intro text
    rw [format_markdown_for_slack]
    have h := formatLines_isSome (splitOnNl (prepass text)) ⟨false, 0, false⟩ []
      (fun hc => absurd hc (by decide))
    obtain ⟨v, hv⟩ := Option.isSome_iff_exists.mp h
    rw [hv]
    rfl
  refine ⟨hfmt, fun s fuel start h => chunksFromF_isSome s fuel start h, ?_⟩
  intro paper
  rw [format_paper_blocks]
  have hb : (paperBodyChunks paper).isSome = true := by
    rw [paperBodyChunks]
    obtain ⟨fs, hfs⟩ := Option.isSome_iff_exists.mp
      (hfmt (paper.summary.getD (str "No summary available.")))
    rw [hfs]
    show (chunksFromF fs fs.length 0).isSome = true
    exact chunksFromF_isSome fs fs.length 0 (by omega)
  obtain ⟨v, hv⟩ := Option.isSome_iff_exists.mp hb
  rw [hv]
  rfl

theorem transducer_and_chunker_total_witness :
    (chunksFromF (str "hi") 2 0).isSome = true :=
  transducer_and_chunker_total.2.1 (str "hi") 2 0 (by decide)

/-! ## Claim C5 -/

/-- Concrete refutation of claim C5: the bare section-title line
`"Key Innovations:"` is emitted bold with the trailing colon retained, not
stripped. -/
theorem title_colon_stripped_counterexample :
    format_markdown_for_slack (str "Key Innovations:\nNext")
      = some (str "*Key Innovations:*\n\nNext") ∧
    str "*Key Innovations:*\n\nNext" ≠ str "*Key Innovations*\n\nNext" := by
  constructor
  · decide
  · decide

/-- Claim C5 (amended): a line whose stripped form is non-empty, does not
start with a heading/bullet/number marker from the guard tuple, ends with a
colon, and is shorter than 50 characters, is emitted as bold with the
trailing colon retained, followed by a blank line when the next line is
non-blank. -/
theorem title_line_bold_colon_retained (st : FmtState) (acc : List Str)
    (line : Str) (rest : List Str)
    (h1 : (stripPy line).isEmpty = false)
    (h2 : startsWithAny (stripPy line) sectionMarkers = false)
    (h3 : (stripPy line).getLast? = some ':')
    (h4 : (stripPy line).length < 50) :
    formatLines st acc (line :: rest) =
      formatLines { st with prevEmpty := false }
        ((if nextNonblank rest then [[]] else []) ++
          ('*' :: (stripPy line ++ ['*'])) :: acc) rest := by
  have ht : titleBranchCond line = true := by
    simp [titleBranchCond, h2, h3, h4]
  rw [formatLines, if_neg (by simp [h1]), if_pos ht]

theorem title_line_bold_colon_retained_witness :
    formatLines ⟨false, 0, false⟩ [] (str "Key Innovations:" :: [str "Next"]) =
      formatLines ⟨false, 0, false⟩
        ((if nextNonblank [str "Next"] then [[]] else []) ++
          ('*' :: (stripPy (str "Key Innovations:") ++ ['*'])) :: []) [str "Next"] :=
  title_line_bold_colon_retained ⟨false, 0, false⟩ [] (str "Key Innovations:")
    [str "Next"] (by decide) (by decide) (by decide) (by decide)

/-! ## Claim C8 -/

/-- Concrete refutation of the "equivalently" universal form of claim C8:
on `"***a***"` a second application of the transducer changes the bold
markers again (`"**a**"` becomes `"*a*"`), so double application does not
agree with single application on markers for every input. -/
theorem transduce_double_apply_counterexample :
    format_markdown_for_slack (str "***a***") = some (str "**a**") ∧
    format_markdown_for_slack (str "**a**") = some (str "*a*") ∧
    str "**a**" ≠ str "*a*" := by
  refine ⟨by decide, by decide, by decide⟩

/-- Claim C8 (amended): the inline bold/italic marker engine is idempotent on
already-target-dialect text — on any string with no doubled asterisk and no
doubled underscore it is the identity, so re-applying it yields the same
single-marker form and never escalates marker counts.  (The parenthetical
generalisation to arbitrary inputs fails, see the counterexample.) -/
theorem inline_markers_stable_on_target (s : Str)
    (h1 : hasDoubled '*' s = false) (h2 : hasDoubled '_' s = false) :
    process_inline_formatting s = s ∧
    process_inline_formatting (process_inline_formatting s)
      = process_inline_formatting s := by
  have he := process_inline_id s h1 h2
  exact ⟨he, by rw [he, he]⟩

theorem inline_markers_stable_on_target_witness :
    process_inline_formatting (str "*a* and _b_") = str "*a* and _b_" :=
  (inline_markers_stable_on_target (str "*a* and _b_") (by decide) (by decide)).1

/-! ## Claim C10 -/

/-- Claim C10: before per-line dispatch the transducer widens single line
breaks into paragraph breaks — for non-empty newline-free lines `s` and `t`,
transducing `s\nt` and `s\n\nt` gives the same result — and consequently the
transducer is not the identity on plain text joined by single newlines. -/
theorem single_newline_widened_to_paragraph :
    (∀ s t : Str, s ≠ [] → t ≠ [] → '\n' ∉ s → '\n' ∉ t →
      format_markdown_for_slack (s ++ '\n' :: t)
        = format_markdown_for_slack (s ++ '\n' :: '\n' :: t)) ∧
    format_markdown_for_slack (str "a\nb") ≠ some (str "a\nb") := by
  constructor
  · intro s t hs ht hns hnt
    rw [format_markdown_for_slack, format_markdown_for_slack,
      prepass_single_join s t hs ht hns hnt,
      prepass_double_join s t hs ht hns hnt]
  · decide

theorem single_newline_widened_to_paragraph_witness :
    format_markdown_for_slack (str "a\nb") = format_markdown_for_slack (str "a\n\nb") :=
  single_newline_widened_to_paragraph.1 (str "a") (str "b")
    (by decide) (by decide) (by decide) (by decide)

/-! ## Claim C3 -/

/-- Concrete refutation of claim C3: a present-but-empty summary string
produces zero body chunk blocks — the layout is the six fixed blocks plus the
context block, with no summary chunk between them (`dict.get`'s fallback
fires only for an absent key, not for an empty value). -/
theorem empty_summary_no_body_chunk_counterexample :
    paperBodyChunks emptySummaryPaper = some [] ∧
    format_paper_blocks emptySummaryPaper
      = some (fixedBlocks emptySummaryPaper ++ [contextBlock emptySummaryPaper]) := by
  constructor
  · decide
  · decide

/-- Claim C3 (amended): the layout always holds at least 6 blocks; when the
summary key is absent the body is exactly one chunk holding the fixed
placeholder `"No summary available."`; and whenever the transduced summary is
non-empty there is at least one body chunk.  (A present-but-empty summary
yields zero body chunks.) -/
theorem layout_block_count_and_placeholder (paper : PaperDict)
    (bs : List SlackBlock) (h : format_paper_blocks paper = some bs) :
    6 ≤ bs.length ∧
    (paper.summary = none →
      paperBodyChunks paper = some [str "No summary available."]) ∧
    (∀ fs, format_markdown_for_slack
        (paper.summary.getD (str "No summary available.")) = some fs →
      fs ≠ [] → ∃ c cs, paperBodyChunks paper = some (c :: cs)) := by
  refine ⟨?_, ?_, ?_⟩
  · cases hch : paperBodyChunks paper with
    | none => rw [format_paper_blocks, hch] at h; simp at h
    | some ch =>
      rw [format_paper_blocks, hch] at h
      have h2 : some (fixedBlocks paper ++
          ch.map (fun c => SlackBlock.textSection (truncate_text c 1950)) ++
          [contextBlock paper]) = some bs := h
      have hbs : bs = fixedBlocks paper ++
          ch.map (fun c => SlackBlock.textSection (truncate_text c 1950)) ++
          [contextBlock paper] := (Option.some.inj h2).symm
      rw [hbs]
      have h6 : (fixedBlocks paper).length = 6 := rfl
      simp only [List.length_append, h6, List.length_cons, List.length_nil]
      omega
  · intro hnone
    rw [paperBodyChunks, hnone]
    decide
  · intro fs hfs hne
    rw [paperBodyChunks, hfs]
    show ∃ c cs, chunksFromF fs fs.length 0 = some (c :: cs)
    cases fs with
    | nil => exact absurd rfl hne
    | cons a fs2 =>
      simp only [List.length_cons]
      rw [chunksFromF, if_pos (by simp)]
      have hfuel : (a :: fs2).length - chunkEnd (a :: fs2) 0 ≤ fs2.length := by
        have hp := chunkEnd_lt (a :: fs2) 0
        simp only [List.length_cons]
        omega
      obtain ⟨v, hv⟩ := Option.isSome_iff_exists.mp
        (chunksFromF_isSome (a :: fs2) fs2.length (chunkEnd (a :: fs2) 0) hfuel)
      rw [hv]
      exact ⟨pySlice (a :: fs2) 0 (chunkEnd (a :: fs2) 0), v, rfl⟩

theorem layout_block_count_witness :
    6 ≤ (fixedBlocks samplePaper ++ [SlackBlock.textSection (str "hi")] ++
      [contextBlock samplePaper]).length :=
  (layout_block_count_and_placeholder samplePaper
    (fixedBlocks samplePaper ++ [SlackBlock.textSection (str "hi")] ++
      [contextBlock samplePaper]) (by decide)).1

/-! ## Chunk-boundary characterisation lemmas -/

theorem getLast?_filter_range_none (p : Nat → Bool) :
    ∀ n : Nat, (((List.range n).filter p).getLast? = none ↔
      ∀ j, j < n → p j = false)
  | 0 => by simp
  | m + 1 => by
    rw [List.range_succ, List.filter_append]
    cases hp : p m with
    | true =>
      rw [show List.filter p [m] = [m] from by simp [hp]]
      rw [show ((List.range m).filter p ++ [m]).getLast? = some m from by
        rw [List.getLast?_concat]]
      constructor
      · intro hc; exact absurd hc (by simp)
      · intro hall; exact absurd (hall m (by omega)) (by simp [hp])
    | false =>
      rw [show List.filter p [m] = [] from by simp [hp], List.append_nil]
      rw [getLast?_filter_range_none p m]
      constructor
      · intro hall j hj
        rcases Nat.lt_succ_iff_lt_or_eq.mp hj with hlt | heq
        · exact hall j hlt
        · subst heq; exact hp
      · intro hall j hj
        exact hall j (by omega)

theorem getLast?_filter_range_some (p : Nat → Bool) :
    ∀ n i : Nat, (((List.range n).filter p).getLast? = some i ↔
      (i < n ∧ p i = true ∧ ∀ j, i < j → j < n → p j = false))
  | 0, i => by simp
  | m + 1, i => by
    rw [List.range_succ, List.filter_append]
    cases hp : p m with
    | true =>
      rw [show List.filter p [m] = [m] from by simp [hp]]
      rw [show ((List.range m).filter p ++ [m]).getLast? = some m from by
        rw [List.getLast?_concat]]
      constructor
      · intro h
        have heq : i = m := (Option.some.inj h).symm
        subst heq
        exact ⟨by omega, hp, fun j hj1 hj2 => by omega⟩
      · rintro ⟨hi, hpi, hmax⟩
        have heq : i = m := by
          by_contra hne
          have hilt : i < m := by omega
          exact absurd (hmax m hilt (by omega)) (by simp [hp])
        subst heq
        rfl
    | false =>
      rw [show List.filter p [m] = [] from by simp [hp], List.append_nil]
      rw [getLast?_filter_range_some p m i]
      constructor
      · rintro ⟨hi, hpi, hmax⟩
        refine ⟨by omega, hpi, fun j hj1 hj2 => ?_⟩
        rcases Nat.lt_succ_iff_lt_or_eq.mp hj2 with hlt | heq
        · exact hmax j hj1 hlt
        · subst heq; exact hp
      · rintro ⟨hi, hpi, hmax⟩
        have hilt : i < m := by
          rcases Nat.lt_succ_iff_lt_or_eq.mp hi with hlt | heq
          · exact hlt
          · subst heq; exact absurd hpi (by simp [hp])
        exact ⟨hilt, hpi, fun j hj1 hj2 => hmax j hj1 (by omega)⟩

/-- When the raw right-search finds an occurrence strictly after the window
start, it is exactly the spec-side last strict occurrence. -/
theorem lastPosStrict_of_rfind_gt (s pat : Str) (a b i : Nat)
    (h : rfindSub s pat a b = some i) (hgt : a < i) :
    lastPosStrict s pat a b = some i := by
  rw [rfindSub, getLast?_filter_range_some] at h
  obtain ⟨hin, hp, hmax⟩ := h
  simp only [Bool.and_eq_true, decide_eq_true_eq, beq_iff_eq] at hp
  obtain ⟨⟨hai, hfit⟩, hmatch⟩ := hp
  rw [lastPosStrict, getLast?_filter_range_some]
  refine ⟨?_, ?_, ?_⟩
  · have hmb : min b s.length ≤ b := Nat.min_le_left _ _
    omega
  · simp only [Bool.and_eq_true, decide_eq_true_eq, beq_iff_eq]
    exact ⟨⟨hgt, hfit⟩, hmatch⟩
  · intro j hj1 hj2
    by_contra hc
    rw [Bool.not_eq_false] at hc
    simp only [Bool.and_eq_true, decide_eq_true_eq, beq_iff_eq] at hc
    obtain ⟨⟨haj, hfj⟩, hmj⟩ := hc
    have hjn1 : j < min b s.length + 1 := by omega
    have hfalse := hmax j hj1 hjn1
    simp only [] at hfalse
    have htrue : (decide (a ≤ j) && decide (j + pat.length ≤ min b s.length) &&
        (pySlice s j (j + pat.length) == pat)) = true := by
      simp only [Bool.and_eq_true, decide_eq_true_eq, beq_iff_eq]
      exact ⟨⟨by omega, hfj⟩, hmj⟩
    rw [hfalse] at htrue
    exact absurd htrue (by simp)

/-- When the raw right-search's hit is at or before the window start, no
strict occurrence exists. -/
theorem lastPosStrict_none_of_rfind_le (s pat : Str) (a b i : Nat)
    (h : rfindSub s pat a b = some i) (hle : i ≤ a) :
    lastPosStrict s pat a b = none := by
  rw [rfindSub, getLast?_filter_range_some] at h
  obtain ⟨hin, hp, hmax⟩ := h
  rw [lastPosStrict, getLast?_filter_range_none]
  intro j hj
  by_contra hc
  rw [Bool.not_eq_false] at hc
  simp only [Bool.and_eq_true, decide_eq_true_eq, beq_iff_eq] at hc
  obtain ⟨⟨haj, hfj⟩, hmj⟩ := hc
  have hjn1 : j < min b s.length + 1 := by omega
  by_cases hji : i < j
  · have hfalse := hmax j hji hjn1
    simp only [] at hfalse
    have htrue : (decide (a ≤ j) && decide (j + pat.length ≤ min b s.length) &&
        (pySlice s j (j + pat.length) == pat)) = true := by
      simp only [Bool.and_eq_true, decide_eq_true_eq, beq_iff_eq]
      exact ⟨⟨by omega, hfj⟩, hmj⟩
    rw [hfalse] at htrue
    exact absurd htrue (by simp)
  · omega

/-- When the raw right-search finds nothing, neither does the spec side. -/
theorem lastPosStrict_none_of_rfind_none (s pat : Str) (a b : Nat)
    (h : rfindSub s pat a b = none) : lastPosStrict s pat a b = none := by
  rw [rfindSub, getLast?_filter_range_none] at h
  rw [lastPosStrict, getLast?_filter_range_none]
  intro j hj
  by_contra hc
  rw [Bool.not_eq_false] at hc
  simp only [Bool.and_eq_true, decide_eq_true_eq, beq_iff_eq] at hc
  obtain ⟨⟨haj, hfj⟩, hmj⟩ := hc
  have hjn1 : j < min b s.length + 1 := by omega
  have hfalse := h j hjn1
  simp only [] at hfalse
  have htrue : (decide (a ≤ j) && decide (j + pat.length ≤ min b s.length) &&
      (pySlice s j (j + pat.length) == pat)) = true := by
    simp only [Bool.and_eq_true, decide_eq_true_eq, beq_iff_eq]
    exact ⟨⟨by omega, hfj⟩, hmj⟩
  rw [hfalse] at htrue
  exact absurd htrue (by simp)

/-- One stage of the boundary search agrees with its spec-side description. -/
theorem boundary_stage (s pat : Str) (start w off restL restR : Nat)
    (hrest : restL = restR) :
    (if (start : Int) < rfindI s pat start w then
      (rfindI s pat start w).toNat + off
    else restL) = specStage (lastPosStrict s pat start w) off restR := by
  cases hpb : rfindSub s pat start w with
  | some i =>
    have hI : rfindI s pat start w = (i : Int) := by rw [rfindI, hpb]
    by_cases hgt : start < i
    · rw [hI, if_pos (by exact_mod_cast hgt),
        lastPosStrict_of_rfind_gt s pat start w i hpb hgt]
      simp only [specStage, Int.toNat_ofNat]
    · rw [hI, if_neg (by exact_mod_cast hgt),
        lastPosStrict_none_of_rfind_le s pat start w i hpb (by omega),
        specStage, hrest]
  | none =>
    have hI : rfindI s pat start w = -1 := by rw [rfindI, hpb]
    rw [hI, if_neg (by omega), lastPosStrict_none_of_rfind_none s pat start w hpb,
      specStage, hrest]

/-- The imperative boundary computation equals the spec-side boundary rule. -/
theorem chunkEnd_eq_specBoundary (s : Str) (start : Nat) :
    chunkEnd s start = specBoundary s start := by
  rw [chunkEnd, specBoundary]
  by_cases hw : start + 1900 < s.length
  · rw [if_pos hw, if_pos hw]
    exact boundary_stage s (str "\n\n") start (start + 1900) 2 _ _
      (boundary_stage s (str "\n") start (start + 1900) 1 _ _
        (boundary_stage s (str " ") start (start + 1900) 1 _ _ rfl))
  · rw [if_neg hw, if_neg hw]

theorem pySlice_append_drop (s : Str) (a b : Nat) (h : a ≤ b) :
    pySlice s a b ++ s.drop b = s.drop a := by
  rw [pySlice, List.drop_take]
  have h2 := List.take_append_drop (b - a) (s.drop a)
  rw [List.drop_drop] at h2
  rw [Nat.add_sub_cancel' h] at h2
  exact h2

/-- The chunks concatenate back to the unconsumed remainder of the text. -/
theorem chunksFromF_flatten (s : Str) : ∀ (fuel start : Nat) (cs : List Str),
    chunksFromF s fuel start = some cs → cs.flatten = s.drop start := by
  intro fuel
  induction fuel with
  | zero =>
    intro start cs h
    rw [chunksFromF] at h
    by_cases hle : s.length ≤ start
    · rw [if_pos hle] at h
      have hcs : cs = [] := (Option.some.inj h).symm
      subst hcs
      simp [List.drop_eq_nil_of_le hle]
    · rw [if_neg hle] at h
      exact absurd h (by simp)
  | succ m ih =>
    intro start cs h
    rw [chunksFromF] at h
    by_cases hlt : start < s.length
    · rw [if_pos hlt] at h
      cases hin : chunksFromF s m (chunkEnd s start) with
      | none => rw [hin] at h; simp at h
      | some cs2 =>
        rw [hin] at h
        have h2 : some (pySlice s start (chunkEnd s start) :: cs2) = some cs := h
        have hcs : cs = pySlice s start (chunkEnd s start) :: cs2 :=
          (Option.some.inj h2).symm
        subst hcs
        rw [List.flatten_cons, ih (chunkEnd s start) cs2 hin]
        exact pySlice_append_drop s start (chunkEnd s start)
          (le_of_lt (chunkEnd_lt s start))
    · rw [if_neg hlt] at h
      have hcs : cs = [] := (Option.some.inj h).symm
      subst hcs
      have hge : s.length ≤ start := by omega
      simp [List.drop_eq_nil_of_le hge]

/-- No chunk exceeds the 1900-character target size. -/
theorem chunksFromF_chunk_le (s : Str) : ∀ (fuel start : Nat) (cs : List Str),
    chunksFromF s fuel start = some cs → ∀ c ∈ cs, c.length ≤ 1900 := by
  intro fuel
  induction fuel with
  | zero =>
    intro start cs h
    rw [chunksFromF] at h
    by_cases hle : s.length ≤ start
    · rw [if_pos hle] at h
      have hcs : cs = [] := (Option.some.inj h).symm
      subst hcs
      intro c hc
      simp at hc
    · rw [if_neg hle] at h
      exact absurd h (by simp)
  | succ m ih =>
    intro start cs h
    rw [chunksFromF] at h
    by_cases hlt : start < s.length
    · rw [if_pos hlt] at h
      cases hin : chunksFromF s m (chunkEnd s start) with
      | none => rw [hin] at h; simp at h
      | some cs2 =>
        rw [hin] at h
        have h2 : some (pySlice s start (chunkEnd s start) :: cs2) = some cs := h
        have hcs : cs = pySlice s start (chunkEnd s start) :: cs2 :=
          (Option.some.inj h2).symm
        subst hcs
        intro c hc
        rcases List.mem_cons.mp hc with hc1 | hc2
        · subst hc1
          have hle := chunkEnd_le s start
          rw [pySlice]
          simp only [List.length_drop, List.length_take]
          omega
        · exact ih (chunkEnd s start) cs2 hin c hc2
    · rw [if_neg hlt] at h
      have hcs : cs = [] := (Option.some.inj h).symm
      subst hcs
      intro c hc
      simp at hc

/-! ## Claim C6 -/

/-- Claim C6: the body chunks partition the transduced summary exactly —
concatenating them in order reproduces it with no character dropped or
duplicated; each boundary computed by the splitting loop equals the
spec-side rule (last double-newline strictly after the chunk start within
the window `[start, start+1900)`, else last newline, else last space, else
the window boundary); and no chunk exceeds 1900 characters, so the 1950
hard-truncation of each chunk block is the identity and every block text
stays within 1950 characters. -/
theorem chunks_partition_summary_exactly (s : Str) (cs : List Str)
    (h : chunksFromF s s.length 0 = some cs) :
    cs.flatten = s ∧
    (∀ c ∈ cs, c.length ≤ 1900 ∧ truncate_text c 1950 = c ∧
      (truncate_text c 1950).length ≤ 1950) ∧
    (∀ start, chunkEnd s start = specBoundary s start) := by
  refine ⟨?_, ?_, fun start => chunkEnd_eq_specBoundary s start⟩
  · have hf := chunksFromF_flatten s s.length 0 cs h
    simpa using hf
  · intro c hc
    have hlen := chunksFromF_chunk_le s s.length 0 cs h c hc
    have htr : truncate_text c 1950 = c := by
      rw [truncate_text, if_pos (by omega)]
    exact ⟨hlen, htr, by rw [htr]; omega⟩

theorem chunks_partition_summary_exactly_witness :
    ([str "hello"] : List Str).flatten = str "hello" :=
  (chunks_partition_summary_exactly (str "hello") [str "hello"] (by decide)).1
